import Mathlib

/-!
Verification of the table-normalization core of `src/day1.py`
(PSX market-summary scraper / analyzer).

The Python code works on pandas DataFrames.  We embed a DataFrame as a
structure holding a list of column labels, a list of row-index labels and a
list of rows (each row a list of cells).  A cell is either a string value or
the missing-value marker `na` (pandas NaN; Python renders it as the string
"nan" under `str()`/`astype(str)`).  A raw scraped table may in addition have
a multi-level (pandas `MultiIndex`) column header, which we represent with
the `Header` type.

Python strings are modelled as Lean `String` (a list of characters);
`str.strip()` is modelled over the ASCII whitespace characters plus the
non-breaking space U+00A0 (all of which Python's `strip` removes), and
`str.upper()` is modelled as the ASCII upper-casing that `Char` supports,
which covers every string the program compares against (the canonical field
names are plain ASCII).
-/

namespace PSX

-- ---------------------------------------------------------------------------
-- Python string primitives
-- ---------------------------------------------------------------------------

-- Whitespace as stripped by Python's `str.strip()` (restricted to the ASCII
-- whitespace characters and the non-breaking space U+00A0).
def pyWSCode (n : Nat) : Bool :=
  n = 32 || n = 9 || n = 10 || n = 13 || n = 11 || n = 12 || n = 160

def isPyWS (c : Char) : Bool := pyWSCode c.toNat

-- ASCII upper-casing of one character (Python `str.upper()` on ASCII input).
def pyUpperChar (c : Char) : Char :=
  if 97 ≤ c.toNat ∧ c.toNat ≤ 122 then Char.ofNat (c.toNat - 32) else c

-- `str.replace("\xa0", " ")`: the pattern is a single character, so the
-- replacement acts characterwise.
def replNbspL (l : List Char) : List Char :=
  l.map (fun c => if c.toNat = 160 then ' ' else c)

-- `str.strip()`: drop whitespace from both ends.
def trimL (l : List Char) : List Char :=
  ((l.dropWhile isPyWS).reverse.dropWhile isPyWS).reverse

def upperL (l : List Char) : List Char := l.map pyUpperChar

def pyReplaceNbsp (s : String) : String := ⟨replNbspL s.data⟩

def pyStrip (s : String) : String := ⟨trimL s.data⟩

def pyUpper (s : String) : String := ⟨upperL s.data⟩

-- day1.py lines 47-48:
-- def _norm(x) -> str:
--     return str(x).replace("\xa0", " ").strip().upper()
-- (applied below only to values already rendered as strings).
def pyNorm (s : String) : String := pyUpper (pyStrip (pyReplaceNbsp s))

-- Python `str.startswith`.
def startsL : List Char → List Char → Bool
  | _, [] => true
  | [], _ :: _ => false
  | c :: cs, d :: ds => c == d && startsL cs ds

def pyStartsWith (s p : String) : Bool := startsL s.data p.data

-- ---------------------------------------------------------------------------
-- DataFrames
-- ---------------------------------------------------------------------------

-- One pandas cell: a string value, or NaN.
inductive Cell where
  | val : String → Cell
  | na : Cell
deriving DecidableEq, Repr

-- `str(cell)` / `astype(str)`: NaN renders as "nan".
def Cell.toStr : Cell → String
  | Cell.val s => s
  | Cell.na => "nan"

-- `_norm(v)` applied to a cell value.
def normCell (c : Cell) : String := pyNorm c.toStr

-- A pandas column header: a flat Index of (stringified) labels, or a
-- MultiIndex whose labels are tuples of level components.
inductive Header where
  | flat : List String → Header
  | multi : List (List String) → Header
deriving DecidableEq, Repr

-- A DataFrame with a flat header.
structure DF where
  cols : List String
  index : List Nat
  rows : List (List Cell)
deriving DecidableEq, Repr

-- A raw scraped DataFrame (header possibly multi-level).
structure RawDF where
  header : Header
  index : List Nat
  rows : List (List Cell)
deriving DecidableEq, Repr

-- day1.py line 19.
def CANON : List String :=
  ["SCRIP", "LDCP", "OPEN", "HIGH", "LOW", "CURRENT", "CHANGE", "VOLUME"]

-- ---------------------------------------------------------------------------
-- Generic DataFrame operations
-- ---------------------------------------------------------------------------

-- Boolean-mask selection (`df.loc[:, mask]` along columns, `df[mask]` along
-- rows): keep the entries whose mask bit is true.
def applyMask {α : Type} (m : List Bool) (l : List α) : List α :=
  (m.zip l).filterMap (fun p => if p.1 then some p.2 else none)

-- Column selection by a boolean mask: restrict the labels and every row.
def maskDF (m : List Bool) (d : DF) : DF :=
  ⟨applyMask m d.cols, d.index, d.rows.map (applyMask m)⟩

-- `pd.Index(cols).duplicated(keep="first")`, negated: the mask that keeps
-- only the first occurrence of each label.  `seen` accumulates the labels
-- already passed.
def dupScan : List String → List String → List Bool
  | _, [] => []
  | seen, c :: cs => (!seen.contains c) :: dupScan (c :: seen) cs

-- Cell lookup by column label (first matching column; `na` when absent).
def getCell (cols : List String) (r : List Cell) (c : String) : Cell :=
  match cols.findIdx? (fun x => x == c) with
  | some i => r.getD i Cell.na
  | none => Cell.na

-- `df[names]`: project to the given column labels, in the given order.
def selectCols (names : List String) (d : DF) : DF :=
  ⟨names, d.index, d.rows.map (fun r => names.map (getCell d.cols r))⟩

-- ---------------------------------------------------------------------------
-- clean_table_to_stock_schema (day1.py lines 51-80), stage by stage
-- ---------------------------------------------------------------------------

-- Lines 54-55: if the header is a MultiIndex, take the innermost (last)
-- level of each label.
def flattenCols : Header → List String
  | Header.flat cs => cs
  | Header.multi cs => cs.map (fun l => l.getLastD "")

def step1 (t : RawDF) : DF := ⟨flattenCols t.header, t.index, t.rows⟩

-- Line 57: df.columns = [_norm(c) for c in df.columns].
def step2 (d : DF) : DF := { d with cols := d.cols.map pyNorm }

-- Line 58: drop the columns whose label starts with "UNNAMED".
def step3 (d : DF) : DF :=
  maskDF (d.cols.map (fun c => !pyStartsWith c "UNNAMED")) d

-- Lines 60-65: if the table has rows, normalize the cells of row 0; if at
-- least 4 of them are canonical field names, promote that row to the header
-- and drop it from the data (`iloc[1:].reset_index(drop=True)`).
def step4 (d : DF) : DF :=
  match d.rows with
  | [] => d
  | r0 :: rest =>
      let row0 := r0.map normCell
      let hits := (row0.filter (fun v => CANON.contains v)).length
      if 4 ≤ hits then ⟨row0, List.range rest.length, rest⟩ else d

-- Line 67: re-normalize the labels.
def step5 (d : DF) : DF := { d with cols := d.cols.map pyNorm }

-- Line 68: keep only the first occurrence of each duplicated label.
def step6 (d : DF) : DF := maskDF (dupScan [] d.cols) d

-- Line 70: present = [c for c in CANON if c in df.columns].
def presentOf (cols : List String) : List String :=
  CANON.filter (fun c => cols.contains c)

-- Lines 76-78: if a SCRIP column is present, coerce it to text and strip it
-- (line 77), then drop the rows whose upper-cased SCRIP value is the literal
-- "SCRIP" (line 78).
def scripStep (d : DF) : DF :=
  match d.cols.findIdx? (fun x => x == "SCRIP") with
  | none => d
  | some j =>
      let rows1 := d.rows.map
        (fun r => r.set j (Cell.val (pyStrip (r.getD j Cell.na).toStr)))
      let keep := rows1.map
        (fun r => pyUpper (r.getD j Cell.na).toStr != "SCRIP")
      ⟨d.cols, applyMask keep d.index, applyMask keep rows1⟩

-- Lines 67-80 as a function of the frame reached after step 4.
def finishFrom (d : DF) : Option DF :=
  let d6 := step6 (step5 d)
  let present := presentOf d6.cols
  if present.length < 6 then none
  else some (scripStep (selectCols present d6))

-- day1.py lines 51-80.
def clean_table_to_stock_schema (t : RawDF) : Option DF :=
  finishFrom (step4 (step3 (step2 (step1 t))))

-- ---------------------------------------------------------------------------
-- save_all_tables_single_sheet (day1.py lines 83-113)
-- ---------------------------------------------------------------------------

-- Filesystem effects performed by the aggregator, in order.
inductive FSEvent where
  | mkdirAll : String → FSEvent
  | writeExcel : String → String → DF → FSEvent
deriving DecidableEq, Repr

-- `pd.concat` column alignment: the union of the columns in order of first
-- appearance.
def unionColsFrom : List String → List DF → List String
  | acc, [] => acc
  | acc, d :: ds =>
      unionColsFrom (acc ++ d.cols.filter (fun c => !acc.contains c)) ds

def unionCols (ds : List DF) : List String := unionColsFrom [] ds

-- Reindex one row of a frame with columns `src` to the target column list:
-- absent columns are filled with NaN.
def alignRow (target src : List String) (r : List Cell) : List Cell :=
  target.map (getCell src r)

-- `pd.concat(ds, ignore_index=True)`: align every frame to the union of the
-- columns, stack the rows, and renumber the index densely from 0.
def concatIgnoreIndex (ds : List DF) : DF :=
  let cs := unionCols ds
  let rows := (ds.map (fun d => d.rows.map (alignRow cs d.cols))).flatten
  ⟨cs, List.range rows.length, rows⟩

-- day1.py lines 83-113.  The returned event list records the filesystem
-- writes (directory creation, workbook write) the call performs.
def save_all_tables_single_sheet (tables : List RawDF) (out_dir excel_name : String) :
    Option DF × List FSEvent :=
  if tables.isEmpty then (none, [])
  else
    let cleaned := tables.filterMap clean_table_to_stock_schema
    if cleaned.isEmpty then (none, [])
    else
      let combined := concatIgnoreIndex cleaned
      (some combined,
        [FSEvent.mkdirAll out_dir,
         FSEvent.writeExcel (out_dir ++ "/" ++ excel_name) "AllData" combined])

-- ---------------------------------------------------------------------------
-- Witness fixtures (concrete raw tables)
-- ---------------------------------------------------------------------------

-- A well-formed stock table with all 8 canonical columns and one data row.
def wStockRaw : RawDF :=
  ⟨Header.flat ["SCRIP", "LDCP", "OPEN", "HIGH", "LOW", "CURRENT", "CHANGE", "VOLUME"],
   [0],
   [[Cell.val "AAA", Cell.val "10", Cell.val "10", Cell.val "11", Cell.val "9",
     Cell.val "10.5", Cell.val "+0.5", Cell.val "1000"]]⟩

-- Its normalized output.
def wStockOut : DF :=
  ⟨["SCRIP", "LDCP", "OPEN", "HIGH", "LOW", "CURRENT", "CHANGE", "VOLUME"],
   [0],
   [[Cell.val "AAA", Cell.val "10", Cell.val "10", Cell.val "11", Cell.val "9",
     Cell.val "10.5", Cell.val "+0.5", Cell.val "1000"]]⟩

-- A noise table (menu/footer-like): rejected.
def wNoiseRaw : RawDF :=
  ⟨Header.flat ["Unnamed: 0", "Sector", "Count"], [0],
   [[Cell.val "", Cell.val "Banks", Cell.val "5"]]⟩

-- A table whose real header was shifted into data row 0.
def wPromoteRaw : RawDF :=
  ⟨Header.flat ["0", "1", "2", "3", "4", "5"], [0, 1],
   [[Cell.val "Scrip", Cell.val "LDCP", Cell.val "Open", Cell.val "High",
     Cell.val "Low", Cell.val "Current"],
    [Cell.val "BBB", Cell.val "1", Cell.val "2", Cell.val "3",
     Cell.val "4", Cell.val "5"]]⟩

-- A table with a residual literal "scrip" row inside the SCRIP column.
def wScripRaw : RawDF :=
  ⟨Header.flat ["SCRIP", "LDCP", "OPEN", "HIGH", "LOW", "CURRENT"], [0, 1],
   [[Cell.val " scrip ", Cell.val "1", Cell.val "2", Cell.val "3",
     Cell.val "4", Cell.val "5"],
    [Cell.val "CCC", Cell.val "1", Cell.val "2", Cell.val "3",
     Cell.val "4", Cell.val "5"]]⟩

-- A header-only table: canonical columns, zero data rows.
def wEmptyRaw : RawDF :=
  ⟨Header.flat ["SCRIP", "LDCP", "OPEN", "HIGH", "LOW", "CURRENT", "CHANGE", "VOLUME"],
   [], []⟩

-- The first (promoted) row and the remaining data rows of `wPromoteRaw`.
def wPromoteR0 : List Cell :=
  [Cell.val "Scrip", Cell.val "LDCP", Cell.val "Open", Cell.val "High",
   Cell.val "Low", Cell.val "Current"]

def wPromoteRest : List (List Cell) :=
  [[Cell.val "BBB", Cell.val "1", Cell.val "2", Cell.val "3",
    Cell.val "4", Cell.val "5"]]

-- The output of the normalizer on `wScripRaw`: the literal "scrip" row is
-- gone, the other row keeps its original index label.
def wScripOut : DF :=
  ⟨["SCRIP", "LDCP", "OPEN", "HIGH", "LOW", "CURRENT"], [1],
   [[Cell.val "CCC", Cell.val "1", Cell.val "2", Cell.val "3",
     Cell.val "4", Cell.val "5"]]⟩

-- The frame `out` as it stands at day1.py line 74, before the SCRIP cleanup:
-- the steps 1-6 pipeline projected to the canonical columns present.
def preScripFrame (t : RawDF) : DF :=
  let d6 := step6 (step5 (step4 (step3 (step2 (step1 t)))))
  selectCols (presentOf d6.cols) d6

-- What line 77 does to one row: re-write the SCRIP cell (if the label list
-- has one) as stripped text.
def scripRow (cols : List String) (r : List Cell) : List Cell :=
  match cols.findIdx? (fun x => x == "SCRIP") with
  | some j => r.set j (Cell.val (pyStrip (r.getD j Cell.na).toStr))
  | none => r

-- What lines 67-78 do to one data row of the frame `d` reached after step 4:
-- drop the cells of duplicate-labelled columns, project to the canonical
-- columns present, and re-write the SCRIP cell as stripped text.
def rowFinish (d : DF) (r : List Cell) : List Cell :=
  let cols5 := d.cols.map pyNorm
  let m := dupScan [] cols5
  let cols6 := applyMask m cols5
  let present := presentOf cols6
  scripRow present (present.map (getCell cols6 (applyMask m r)))

-- ---------------------------------------------------------------------------
-- Object-identity model of clean_table_to_stock_schema (for the purity claim)
-- ---------------------------------------------------------------------------

-- Python DataFrames are mutable objects.  To talk about mutation we model a
-- heap of DataFrame objects (a list indexed by object references).
-- `df.copy()` and every pandas call that yields a new frame allocate a fresh
-- object at the end of the heap; `df.columns = ...` (lines 55, 57, 64, 67)
-- and `out["SCRIP"] = ...` (line 77) write the referenced object in place.

def RawDF.toDF (t : RawDF) : DF := ⟨flattenCols t.header, t.index, t.rows⟩

def RawDF.ofDF (d : DF) : RawDF := ⟨Header.flat d.cols, d.index, d.rows⟩

def heapDefault : RawDF := ⟨Header.flat [], [], []⟩

def heapGet (h : List RawDF) (r : Nat) : RawDF := h.getD r heapDefault

-- Lines 60-65 over the heap: `p2` is the reference of the working frame
-- `df`, `d3` its value.  On promotion line 64 writes the columns in place
-- and line 65 allocates the shifted frame; otherwise nothing happens.
def heapStep4 (h4 : List RawDF) (p2 : Nat) (d3 : DF) : List RawDF × Nat :=
  match d3.rows with
  | [] => (h4, p2)
  | r0c :: rest =>
      let row0 := r0c.map normCell
      let hits := (row0.filter (fun v => CANON.contains v)).length
      if 4 ≤ hits then
        let h5 := h4.set p2 (RawDF.ofDF ⟨row0, d3.index, d3.rows⟩)
        (h5 ++ [RawDF.ofDF ⟨row0, List.range rest.length, rest⟩], h5.length)
      else (h4, p2)

-- `h` extends `h0`: same or larger, with every original object untouched.
def Pres (h0 h : List RawDF) : Prop :=
  h0.length ≤ h.length ∧ ∀ i, i < h0.length → heapGet h i = heapGet h0 i

-- day1.py lines 51-80 over the heap: `r0` is the reference to the caller's
-- table.  Returns the final heap and the reference of the returned frame
-- (none on rejection).  The value written by each in-place update or
-- allocation is expressed with the stage functions above, which compute the
-- state the Python object has after the corresponding line; the heap
-- operations record which object each line touches.  Flattening a flat
-- header is the identity, so the conditional columns write of lines 54-55 is
-- modelled as an unconditional write of the flattened header.
def cleanHeap (h0 : List RawDF) (r0 : Nat) : List RawDF × Option Nat :=
  let v0 := heapGet h0 r0
  -- line 52: df = df.copy()  (fresh object; the caller's object stays put)
  let p1 := h0.length
  let h1 := h0 ++ [v0]
  -- lines 54-55: in-place columns write on the copy
  let v1 := RawDF.ofDF (step1 v0)
  let h2 := h1.set p1 v1
  -- line 57: in-place columns write
  let v2 := RawDF.ofDF (step2 (RawDF.toDF v1))
  let h3 := h2.set p1 v2
  -- line 58: df = df.loc[:, mask]  (fresh object)
  let v3 := RawDF.ofDF (step3 (RawDF.toDF v2))
  let p2 := h3.length
  let h4 := h3 ++ [v3]
  -- lines 60-65: maybe an in-place columns write (line 64) followed by a
  -- fresh allocation (line 65)
  let s := heapStep4 h4 p2 (RawDF.toDF v3)
  let h6 := s.1
  let p3 := s.2
  -- the value held by the object at p3 after lines 60-65
  let v6 := RawDF.ofDF (step4 (RawDF.toDF v3))
  -- line 67: in-place columns write
  let v7 := RawDF.ofDF (step5 (RawDF.toDF v6))
  let h7 := h6.set p3 v7
  -- line 68: df = df.loc[:, mask]  (fresh object)
  let v8 := RawDF.ofDF (step6 (RawDF.toDF v7))
  let h8 := h7 ++ [v8]
  -- lines 70-72
  let present := presentOf (RawDF.toDF v8).cols
  if present.length < 6 then (h8, none)
  else
    -- line 74: out = df[present].copy()  (fresh object)
    let v9 := RawDF.ofDF (selectCols present (RawDF.toDF v8))
    let p5 := h8.length
    let h9 := h8 ++ [v9]
    -- lines 76-78
    match (RawDF.toDF v9).cols.findIdx? (fun x => x == "SCRIP") with
    | none => (h9, some p5)
    | some j =>
        let rows1 := (RawDF.toDF v9).rows.map
          (fun r => r.set j (Cell.val (pyStrip (r.getD j Cell.na).toStr)))
        -- line 77: out["SCRIP"] = ... (in-place write)
        let h10 := h9.set p5
          (RawDF.ofDF ⟨(RawDF.toDF v9).cols, (RawDF.toDF v9).index, rows1⟩)
        let keep := rows1.map (fun r => pyUpper (r.getD j Cell.na).toStr != "SCRIP")
        -- line 78: out = out[mask]  (fresh object)
        (h10 ++ [RawDF.ofDF ⟨(RawDF.toDF v9).cols,
            applyMask keep (RawDF.toDF v9).index, applyMask keep rows1⟩],
         some h10.length)

-- ---------------------------------------------------------------------------
-- Helper lemmas
-- ---------------------------------------------------------------------------

theorem applyMask_map_self {α : Type} (p : α → Bool) (l : List α) :
    applyMask (l.map p) l = l.filter p := by
  induction l with
  | nil => rfl
  | cons a l ih =>
      simp only [applyMask, List.map_cons, List.zip_cons_cons, List.filterMap_cons,
        List.filter_cons] at *
      cases h : p a <;> simp [h, ih]

theorem CANON_nodup : CANON.Nodup := by decide

theorem scripStep_cols (d : DF) : (scripStep d).cols = d.cols := by
  unfold scripStep
  split <;> rfl

theorem selectCols_cols (names : List String) (d : DF) :
    (selectCols names d).cols = names := rfl

theorem presentOf_sublist (cols : List String) : (presentOf cols).Sublist CANON :=
  List.filter_sublist CANON

theorem presentOf_nodup (cols : List String) : (presentOf cols).Nodup :=
  (presentOf_sublist cols).nodup CANON_nodup

theorem presentOf_length_le (cols : List String) : (presentOf cols).length ≤ 8 :=
  le_trans (List.length_filter_le _ CANON) (by decide)

theorem pyUpper_SCRIP : pyUpper "SCRIP" = "SCRIP" := by decide

-- The output frame of a successful run, in terms of the frame after step 4.
theorem finishFrom_eq_some {d : DF} {out : DF} (h : finishFrom d = some out) :
    ¬ (presentOf (step6 (step5 d)).cols).length < 6 ∧
      out = scripStep (selectCols (presentOf (step6 (step5 d)).cols) (step6 (step5 d))) := by
  unfold finishFrom at h
  by_cases hlt : (presentOf (step6 (step5 d)).cols).length < 6
  · simp [hlt] at h
  · simp [hlt] at h
    exact ⟨hlt, h.symm⟩

-- If the column labels of `d` are duplicate-free, no surviving row of the
-- SCRIP-cleanup step carries the literal string "SCRIP" in the SCRIP column.
theorem scripStep_no_literal (d : DF) (hnd : d.cols.Nodup) (j : Nat)
    (hj : j < (scripStep d).cols.length)
    (hcol : (scripStep d).cols.getD j "" = "SCRIP") :
    ∀ r ∈ (scripStep d).rows, r.getD j Cell.na ≠ Cell.val "SCRIP" := by
  intro r hr habs
  rw [scripStep_cols] at hj hcol
  have hcolj : d.cols[j] = "SCRIP" := by
    rw [← List.getD_eq_getElem d.cols "" hj]; exact hcol
  rcases hfind : d.cols.findIdx? (fun x => x == "SCRIP") with _ | j0
  · rw [List.findIdx?_eq_none_iff] at hfind
    have hmem : "SCRIP" ∈ d.cols := hcolj ▸ List.getElem_mem hj
    have hfalse := hfind _ hmem
    simp at hfalse
  · have hrows : (scripStep d).rows =
        (d.rows.map (fun r => r.set j0 (Cell.val (pyStrip (r.getD j0 Cell.na).toStr)))).filter
          (fun r => pyUpper (r.getD j0 Cell.na).toStr != "SCRIP") := by
      unfold scripStep
      rw [hfind]
      exact applyMask_map_self _ _
    obtain ⟨hj0, hpj0, -⟩ := List.findIdx?_eq_some_iff_getElem.mp hfind
    have hjj0 : j = j0 := by
      rw [beq_iff_eq] at hpj0
      exact (List.Nodup.getElem_inj_iff hnd).mp (hcolj.trans hpj0.symm)
    subst hjj0
    rw [hrows] at hr
    have hkeep := (List.mem_filter.mp hr).2
    rw [habs] at hkeep
    simp [Cell.toStr, pyUpper_SCRIP] at hkeep

/-- C1: `clean_table_to_stock_schema` returns REJECTED (`none`) if and only
if, after header flattening (step 1), label normalization (step 2),
unnamed-column dropping (step 3), header-in-first-row promotion (step 4) and
duplicate-label dropping (steps 5-6), fewer than 6 of the 8 canonical field
names are present among the column labels. -/
theorem clean_rejected_iff_lt6_canonical (t : RawDF) :
    clean_table_to_stock_schema t = none ↔
      (presentOf (step6 (step5 (step4 (step3 (step2 (step1 t)))))).cols).length < 6 := by
  unfold clean_table_to_stock_schema finishFrom
  by_cases hlt : (presentOf (step6 (step5 (step4 (step3 (step2 (step1 t)))))).cols).length < 6
  · simp [hlt]
  · simp [hlt]

/-- C2: every table accepted by `clean_table_to_stock_schema` has between 6
and 8 columns, its column labels form a duplicate-free sublist of the
canonical field list (hence all labels are canonical and appear in canonical
order, not source order), and no cell of the SCRIP column is the literal
string "SCRIP". -/
theorem clean_output_invariants (t : RawDF) (out : DF)
    (h : clean_table_to_stock_schema t = some out) :
    6 ≤ out.cols.length ∧ out.cols.length ≤ 8 ∧
    out.cols.Sublist CANON ∧ out.cols.Nodup ∧
    ∀ j, j < out.cols.length → out.cols.getD j "" = "SCRIP" →
      ∀ r ∈ out.rows, r.getD j Cell.na ≠ Cell.val "SCRIP" := by
  unfold clean_table_to_stock_schema at h
  obtain ⟨hge, hout⟩ := finishFrom_eq_some h
  have hcols : out.cols =
      presentOf (step6 (step5 (step4 (step3 (step2 (step1 t)))))).cols := by
    rw [hout, scripStep_cols, selectCols_cols]
  refine ⟨?_, ?_, ?_, ?_, ?_⟩
  · rw [hcols]; omega
  · rw [hcols]; exact presentOf_length_le _
  · rw [hcols]; exact presentOf_sublist _
  · rw [hcols]; exact presentOf_nodup _
  · intro j hjlt hjcol r hrow
    rw [hout] at hjlt hjcol hrow
    refine scripStep_no_literal _ ?_ j hjlt hjcol r hrow
    rw [selectCols_cols]
    exact presentOf_nodup _

/-- Witness for C2: the canonical one-row stock table is accepted with the
expected output, and the theorem applies to it. -/
theorem clean_output_invariants_witness :
    clean_table_to_stock_schema wStockRaw = some wStockOut ∧ 6 ≤ wStockOut.cols.length :=
  ⟨by decide, (clean_output_invariants wStockRaw wStockOut (by decide)).1⟩

-- ---------------------------------------------------------------------------
-- C8: idempotence of `_norm`
-- ---------------------------------------------------------------------------

theorem toNat_ofNat_of_lt {n : Nat} (h : n < 55296) : (Char.ofNat n).toNat = n := by
  have hv : n.isValidChar := Or.inl h
  rw [Char.ofNat, dif_pos hv]
  rfl

theorem pyUpperChar_toNat (c : Char) :
    (pyUpperChar c).toNat =
      if 97 ≤ c.toNat ∧ c.toNat ≤ 122 then c.toNat - 32 else c.toNat := by
  unfold pyUpperChar
  split
  · next h => exact toNat_ofNat_of_lt (by omega)
  · rfl

theorem pyUpperChar_of_not_lower (c : Char) (h : ¬(97 ≤ c.toNat ∧ c.toNat ≤ 122)) :
    pyUpperChar c = c := by
  unfold pyUpperChar
  exact if_neg h

theorem pyUpperChar_idem (c : Char) : pyUpperChar (pyUpperChar c) = pyUpperChar c := by
  by_cases h : 97 ≤ c.toNat ∧ c.toNat ≤ 122
  · refine pyUpperChar_of_not_lower _ ?_
    rw [pyUpperChar_toNat, if_pos h]
    omega
  · rw [pyUpperChar_of_not_lower c h]
    exact pyUpperChar_of_not_lower c h

theorem isPyWS_pyUpperChar (c : Char) : isPyWS (pyUpperChar c) = isPyWS c := by
  unfold isPyWS
  rw [pyUpperChar_toNat]
  by_cases h : 97 ≤ c.toNat ∧ c.toNat ≤ 122
  · rw [if_pos h]
    have h1 : pyWSCode (c.toNat - 32) = false := by
      simp only [pyWSCode, Bool.or_eq_false_iff, decide_eq_false_iff_not]
      omega
    have h2 : pyWSCode c.toNat = false := by
      simp only [pyWSCode, Bool.or_eq_false_iff, decide_eq_false_iff_not]
      omega
    rw [h1, h2]
  · rw [if_neg h]

theorem pyUpperChar_toNat_ne_160 (c : Char) (h : c.toNat ≠ 160) :
    (pyUpperChar c).toNat ≠ 160 := by
  rw [pyUpperChar_toNat]
  split <;> omega

theorem mem_replNbspL {l : List Char} {c : Char} (hc : c ∈ replNbspL l) :
    c.toNat ≠ 160 := by
  unfold replNbspL at hc
  obtain ⟨a, -, rfl⟩ := List.mem_map.mp hc
  split
  · decide
  · next h => exact h

theorem replNbspL_eq_self : ∀ {l : List Char}, (∀ c ∈ l, c.toNat ≠ 160) → replNbspL l = l
  | [], _ => rfl
  | c :: l, h => by
      unfold replNbspL
      rw [List.map_cons, if_neg (h c (by simp))]
      have := replNbspL_eq_self (fun d hd => h d (List.mem_cons_of_mem c hd))
      unfold replNbspL at this
      rw [this]

theorem mem_trimL {l : List Char} {c : Char} (hc : c ∈ trimL l) : c ∈ l := by
  unfold trimL at hc
  rw [List.mem_reverse] at hc
  have h1 := (List.dropWhile_sublist isPyWS).subset hc
  rw [List.mem_reverse] at h1
  exact (List.dropWhile_sublist isPyWS).subset h1

theorem dropWhile_dropWhile {α : Type} (p : α → Bool) (l : List α) :
    (l.dropWhile p).dropWhile p = l.dropWhile p := by
  induction l with
  | nil => rfl
  | cons a l ih =>
      rw [List.dropWhile_cons]
      split
      · exact ih
      · next h => rw [List.dropWhile_cons, if_neg h]

-- A list whose head does not satisfy `p` is unchanged by `dropWhile p`.
theorem dropWhile_eq_self_of_head {α : Type} (p : α → Bool) (a : α) (l : List α)
    (h : ¬ p a) : (a :: l).dropWhile p = a :: l := by
  rw [List.dropWhile_cons, if_neg h]

-- Stripping a trailing segment preserves invariance under a leading strip.
theorem dropWhile_rev_dropWhile {α : Type} (p : α → Bool) (x : List α)
    (hx : x.dropWhile p = x) :
    ((x.reverse.dropWhile p).reverse).dropWhile p = (x.reverse.dropWhile p).reverse := by
  induction x using List.reverseRecOn with
  | nil => rfl
  | append_singleton ys a ih =>
      rw [List.reverse_append, List.reverse_singleton, List.singleton_append,
        List.dropWhile_cons]
      split
      · next hpa =>
          rcases ys with _ | ⟨b, ys'⟩
          · simp
          · have hb : ¬ p b := by
              have := List.dropWhile_eq_self_iff.mp hx (by simp)
              simpa using this
            exact ih (dropWhile_eq_self_of_head p b ys' hb)
      · next hpa =>
          rw [List.reverse_cons, List.reverse_reverse]
          exact hx

theorem trimL_idem (l : List Char) : trimL (trimL l) = trimL l := by
  unfold trimL
  have h1 := dropWhile_dropWhile isPyWS l
  rw [dropWhile_rev_dropWhile isPyWS (l.dropWhile isPyWS) h1]
  rw [List.reverse_reverse, dropWhile_dropWhile]

theorem trimL_upperL (l : List Char) : trimL (upperL l) = upperL (trimL l) := by
  have hfp : (isPyWS ∘ pyUpperChar) = isPyWS := funext isPyWS_pyUpperChar
  unfold trimL upperL
  rw [List.dropWhile_map, hfp, ← List.map_reverse, List.dropWhile_map, hfp,
    ← List.map_reverse]

theorem upperL_idem (l : List Char) : upperL (upperL l) = upperL l := by
  unfold upperL
  rw [List.map_map]
  exact List.map_congr_left (fun c _ => pyUpperChar_idem c)

/-- C8: the label-normalization function `_norm` (replace the non-breaking
space by a space, strip, upper-case) is idempotent: applying it twice gives
the same result as applying it once. -/
theorem pyNorm_idem (s : String) : pyNorm (pyNorm s) = pyNorm s := by
  unfold pyNorm pyUpper pyStrip pyReplaceNbsp
  have hu : ∀ l : List Char, ∀ c ∈ upperL (trimL (replNbspL l)), c.toNat ≠ 160 := by
    intro l c hc
    obtain ⟨a, ha, rfl⟩ := List.mem_map.mp hc
    exact pyUpperChar_toNat_ne_160 a (mem_replNbspL (mem_trimL ha))
  have h1 : replNbspL (upperL (trimL (replNbspL s.data))) =
      upperL (trimL (replNbspL s.data)) := replNbspL_eq_self (hu s.data)
  have h2 : trimL (upperL (trimL (replNbspL s.data))) =
      upperL (trimL (replNbspL s.data)) := by
    rw [trimL_upperL, trimL_idem]
  show String.mk (upperL (trimL (replNbspL (upperL (trimL (replNbspL s.data)))))) =
    String.mk (upperL (trimL (replNbspL s.data)))
  rw [h1, h2, upperL_idem]

-- ---------------------------------------------------------------------------
-- C7, C3
-- ---------------------------------------------------------------------------

/-- C7: normalizing a table with a composite (multi-level) header gives the
same result as normalizing the table whose header was pre-flattened to the
innermost component of each label: header flattening commutes with all later
normalization steps. -/
theorem clean_multi_header_eq_flat (ls : List (List String)) (idx : List Nat)
    (rows : List (List Cell)) :
    clean_table_to_stock_schema ⟨Header.multi ls, idx, rows⟩ =
      clean_table_to_stock_schema
        ⟨Header.flat (ls.map (fun l => l.getLastD "")), idx, rows⟩ := rfl

-- The surviving rows of the SCRIP-cleanup step are among the line-77 images
-- of the incoming rows.
theorem scripStep_rows_sublist (d : DF) :
    (scripStep d).rows.Sublist (d.rows.map (scripRow d.cols)) := by
  unfold scripStep scripRow
  rcases hfind : d.cols.findIdx? (fun x => x == "SCRIP") with _ | j
  · simp
  · dsimp only
    rw [applyMask_map_self]
    exact List.filter_sublist _

-- Every data row of a non-rejected output is the `rowFinish` image of a data
-- row of the frame that entered step 5.
theorem finishFrom_rows_sublist (d : DF) (out : DF) (h : finishFrom d = some out) :
    out.rows.Sublist (d.rows.map (rowFinish d)) := by
  obtain ⟨-, hout⟩ := finishFrom_eq_some h
  rw [hout]
  have h1 := scripStep_rows_sublist
    (selectCols (presentOf (step6 (step5 d)).cols) (step6 (step5 d)))
  have h2 : (selectCols (presentOf (step6 (step5 d)).cols) (step6 (step5 d))).rows.map
        (scripRow (selectCols (presentOf (step6 (step5 d)).cols) (step6 (step5 d))).cols) =
      d.rows.map (rowFinish d) := by
    simp only [selectCols, step5, step6, maskDF, List.map_map]
    rfl
  rwa [h2] at h1

/-- C3: when the first row of the frame reached after steps 1-3 normalizes to
at least 4 canonical field names, step 4 replaces the column labels by that
normalized row and removes the row from the data, and every data row of a
non-rejected output stems from the remaining rows only. -/
theorem clean_promotes_header_row (t : RawDF) (r0 : List Cell)
    (rest : List (List Cell))
    (hrows : (step3 (step2 (step1 t))).rows = r0 :: rest)
    (hhits : 4 ≤ ((r0.map normCell).filter (fun v => CANON.contains v)).length) :
    (step4 (step3 (step2 (step1 t)))).cols = r0.map normCell ∧
    (step4 (step3 (step2 (step1 t)))).rows = rest ∧
    ∀ out, clean_table_to_stock_schema t = some out →
      out.rows.Sublist (rest.map (rowFinish (step4 (step3 (step2 (step1 t)))))) := by
  have hstep4 : step4 (step3 (step2 (step1 t))) =
      ⟨r0.map normCell, List.range rest.length, rest⟩ := by
    unfold step4
    rw [hrows]
    dsimp only
    rw [if_pos hhits]
  refine ⟨by rw [hstep4], by rw [hstep4], ?_⟩
  intro out hclean
  unfold clean_table_to_stock_schema at hclean
  have hsub := finishFrom_rows_sublist _ _ hclean
  rw [hstep4] at hsub
  rw [hstep4]
  exact hsub

/-- Witness for C3: the fixture whose real header sits in data row 0 has that
row promoted and removed. -/
theorem clean_promotes_header_row_witness :
    (step3 (step2 (step1 wPromoteRaw))).rows = wPromoteR0 :: wPromoteRest ∧
    (step4 (step3 (step2 (step1 wPromoteRaw)))).rows = wPromoteRest :=
  ⟨by decide,
   (clean_promotes_header_row wPromoteRaw wPromoteR0 wPromoteRest
      (by decide) (by decide)).2.1⟩

-- ---------------------------------------------------------------------------
-- C6
-- ---------------------------------------------------------------------------

theorem getD_set_self {α : Type} (l : List α) (j : Nat) (a d : α) (h : j < l.length) :
    (l.set j a).getD j d = a := by
  rw [List.getD_eq_getElem _ _ (by simpa using h)]
  exact List.getElem_set_self (by simpa using h)

/-- C6: on an accepted table whose projected frame has a SCRIP column (at
position `j`), the normalizer rewrites every SCRIP cell as stripped text and
keeps exactly the rows whose upper-cased SCRIP value differs from the literal
"SCRIP"; every surviving row's SCRIP cell is the stripped text of the
corresponding pre-cleanup row. -/
theorem clean_scrip_cleanup (t : RawDF) (out : DF) (j : Nat)
    (h : clean_table_to_stock_schema t = some out)
    (hfind : (preScripFrame t).cols.findIdx? (fun x => x == "SCRIP") = some j) :
    out.rows =
      ((preScripFrame t).rows.map
          (fun r => r.set j (Cell.val (pyStrip (r.getD j Cell.na).toStr)))).filter
        (fun r => pyUpper (r.getD j Cell.na).toStr != "SCRIP") ∧
    ∀ r ∈ out.rows, ∃ r0 ∈ (preScripFrame t).rows,
      r.getD j Cell.na = Cell.val (pyStrip (r0.getD j Cell.na).toStr) := by
  unfold clean_table_to_stock_schema at h
  obtain ⟨-, hout⟩ := finishFrom_eq_some h
  have hpre : preScripFrame t =
      selectCols (presentOf (step6 (step5 (step4 (step3 (step2 (step1 t)))))).cols)
        (step6 (step5 (step4 (step3 (step2 (step1 t)))))) := rfl
  rw [← hpre] at hout
  have hrows : out.rows =
      ((preScripFrame t).rows.map
          (fun r => r.set j (Cell.val (pyStrip (r.getD j Cell.na).toStr)))).filter
        (fun r => pyUpper (r.getD j Cell.na).toStr != "SCRIP") := by
    rw [hout]
    unfold scripStep
    rw [hfind]
    dsimp only
    rw [applyMask_map_self]
  refine ⟨hrows, ?_⟩
  intro r hr
  rw [hrows] at hr
  have hmem := (List.mem_filter.mp hr).1
  obtain ⟨r0, hr0, rfl⟩ := List.mem_map.mp hmem
  refine ⟨r0, hr0, ?_⟩
  have hjlt : j < (preScripFrame t).cols.length :=
    (List.findIdx?_eq_some_iff_getElem.mp hfind).fst
  have hlen : r0.length = (preScripFrame t).cols.length := by
    have : (preScripFrame t).rows =
        (step6 (step5 (step4 (step3 (step2 (step1 t)))))).rows.map
          (fun rr => (preScripFrame t).cols.map
            (getCell (step6 (step5 (step4 (step3 (step2 (step1 t)))))).cols rr)) := rfl
    rw [this] at hr0
    obtain ⟨rr, -, rfl⟩ := List.mem_map.mp hr0
    exact List.length_map _ _
  exact getD_set_self r0 j _ Cell.na (hlen ▸ hjlt)

/-- Witness for C6: the fixture with a literal " scrip " row has exactly that
row removed and the other row kept. -/
theorem clean_scrip_cleanup_witness :
    clean_table_to_stock_schema wScripRaw = some wScripOut ∧
    wScripOut.rows =
      ((preScripFrame wScripRaw).rows.map
          (fun r => r.set 0 (Cell.val (pyStrip (r.getD 0 Cell.na).toStr)))).filter
        (fun r => pyUpper (r.getD 0 Cell.na).toStr != "SCRIP") :=
  ⟨by decide, (clean_scrip_cleanup wScripRaw wScripOut 0 (by decide) (by decide)).1⟩

-- ---------------------------------------------------------------------------
-- C4, C5, C10: the aggregator
-- ---------------------------------------------------------------------------

/-- C4: with an empty input list, or when the normalizer rejects every table,
the aggregator returns NONE and performs no filesystem writes (no directory
creation, no workbook write). -/
theorem save_none_no_writes (tables : List RawDF) (dir name : String)
    (h : tables = [] ∨ ∀ t ∈ tables, clean_table_to_stock_schema t = none) :
    save_all_tables_single_sheet tables dir name = (none, []) := by
  rcases h with rfl | hall
  · rfl
  · have hclean : tables.filterMap clean_table_to_stock_schema = [] :=
      List.filterMap_eq_nil_iff.mpr hall
    unfold save_all_tables_single_sheet
    rw [hclean]
    simp

/-- Witness for C4: the noise table is rejected, so the aggregator returns
NONE with no filesystem events. -/
theorem save_none_no_writes_witness :
    clean_table_to_stock_schema wNoiseRaw = none ∧
    save_all_tables_single_sheet [wNoiseRaw] "psx_output" "psx_stocks_single_sheet.xlsx" =
      (none, []) :=
  ⟨by decide,
   save_none_no_writes [wNoiseRaw] "psx_output" "psx_stocks_single_sheet.xlsx"
     (Or.inr (by decide))⟩

theorem getCell_not_mem (cols : List String) (r : List Cell) (c : String)
    (h : c ∉ cols) : getCell cols r c = Cell.na := by
  unfold getCell
  rcases hf : cols.findIdx? (fun x => x == c) with _ | i
  · rfl
  · exfalso
    obtain ⟨hi, hp, -⟩ := List.findIdx?_eq_some_iff_getElem.mp hf
    rw [beq_iff_eq] at hp
    exact h (hp ▸ List.getElem_mem hi)

theorem mem_unionColsFrom (ds : List DF) :
    ∀ (acc : List String) (c : String),
      c ∈ unionColsFrom acc ds ↔ c ∈ acc ∨ ∃ d ∈ ds, c ∈ d.cols := by
  induction ds with
  | nil =>
      intro acc c
      simp [unionColsFrom]
  | cons d ds ih =>
      intro acc c
      rw [show unionColsFrom acc (d :: ds) =
        unionColsFrom (acc ++ d.cols.filter (fun x => !acc.contains x)) ds from rfl]
      rw [ih]
      simp only [List.mem_append, List.mem_filter, List.mem_cons, Bool.not_eq_true']
      by_cases hacc : c ∈ acc
      · simp [hacc]
      · have hcont : acc.contains c = false := by
          rw [← Bool.not_eq_true, List.elem_iff]
          exact hacc
        simp only [hacc, hcont, and_true, false_or]
        constructor
        · rintro (hd | ⟨d', hd', hc⟩)
          · exact ⟨d, Or.inl rfl, hd⟩
          · exact ⟨d', Or.inr hd', hc⟩
        · rintro ⟨d', rfl | hd', hc⟩
          · exact Or.inl hc
          · exact Or.inr ⟨d', hd', hc⟩

theorem mem_unionCols (ds : List DF) (c : String) :
    c ∈ unionCols ds ↔ ∃ d ∈ ds, c ∈ d.cols := by
  rw [unionCols, mem_unionColsFrom]
  simp

/-- C5: when at least one table is accepted, the aggregator returns the
row-wise concatenation of exactly the accepted tables: its rows are the
aligned rows of the accepted tables in order, its row count is the sum of the
accepted tables' row counts, its column set is the union of the accepted
tables' columns, its index is the dense 0-based range, and a union column
absent from a given accepted table is filled with the missing-value marker in
that table's aligned rows. -/
theorem save_concat_properties (tables : List RawDF) (dir name : String)
    (cleaned : List DF)
    (hcl : tables.filterMap clean_table_to_stock_schema = cleaned)
    (hne : cleaned ≠ []) :
    (save_all_tables_single_sheet tables dir name).1 = some (concatIgnoreIndex cleaned) ∧
    (concatIgnoreIndex cleaned).rows =
      (cleaned.map (fun d => d.rows.map (alignRow (unionCols cleaned) d.cols))).flatten ∧
    (concatIgnoreIndex cleaned).rows.length =
      (cleaned.map (fun d => d.rows.length)).sum ∧
    (∀ c, c ∈ (concatIgnoreIndex cleaned).cols ↔ ∃ d ∈ cleaned, c ∈ d.cols) ∧
    (concatIgnoreIndex cleaned).index =
      List.range (concatIgnoreIndex cleaned).rows.length ∧
    (∀ d ∈ cleaned, ∀ r : List Cell, ∀ jc, jc < (unionCols cleaned).length →
      (unionCols cleaned).getD jc "" ∉ d.cols →
      (alignRow (unionCols cleaned) d.cols r).getD jc Cell.na = Cell.na) := by
  subst hcl
  refine ⟨?_, rfl, ?_, ?_, rfl, ?_⟩
  · have htne : tables.isEmpty = false := by
      rcases tables with _ | ⟨t, ts⟩
      · exact absurd rfl hne
      · rfl
    have hcne : (tables.filterMap clean_table_to_stock_schema).isEmpty = false :=
      List.isEmpty_eq_false.mpr hne
    unfold save_all_tables_single_sheet
    simp [htne, hcne]
  · show ((tables.filterMap clean_table_to_stock_schema).map _).flatten.length = _
    rw [List.length_flatten, List.map_map]
    exact congrArg List.sum
      (List.map_congr_left (fun d _ => List.length_map _ _))
  · intro c
    exact mem_unionCols _ c
  · intro d hd r jc hjc hnot
    unfold alignRow
    rw [List.getD_eq_getElem _ _ (by simpa using hjc), List.getElem_map]
    rw [List.getD_eq_getElem _ _ hjc] at hnot
    exact getCell_not_mem _ _ _ hnot

/-- Witness for C5: one accepted 8-column table, one rejected noise table and
one accepted 6-column table produce the concatenation of the two accepted
outputs, with 1 + 1 rows. -/
theorem save_concat_properties_witness :
    [wStockRaw, wNoiseRaw, wScripRaw].filterMap clean_table_to_stock_schema =
      [wStockOut, wScripOut] ∧
    (save_all_tables_single_sheet [wStockRaw, wNoiseRaw, wScripRaw]
        "psx_output" "psx_stocks_single_sheet.xlsx").1 =
      some (concatIgnoreIndex [wStockOut, wScripOut]) ∧
    (concatIgnoreIndex [wStockOut, wScripOut]).rows.length =
      ([wStockOut, wScripOut].map (fun d => d.rows.length)).sum :=
  ⟨by decide,
   (save_concat_properties [wStockRaw, wNoiseRaw, wScripRaw]
      "psx_output" "psx_stocks_single_sheet.xlsx" [wStockOut, wScripOut]
      (by decide) (by decide)).1,
   (save_concat_properties [wStockRaw, wNoiseRaw, wScripRaw]
      "psx_output" "psx_stocks_single_sheet.xlsx" [wStockOut, wScripOut]
      (by decide) (by decide)).2.2.1⟩

theorem scripStep_rows_nil (d : DF) (h : d.rows = []) : (scripStep d).rows = [] := by
  unfold scripStep
  rcases hf : d.cols.findIdx? (fun x => x == "SCRIP") with _ | j
  · exact h
  · dsimp only
    rw [h]
    rfl

/-- C10: a raw table with no data rows but at least 6 canonical column labels
is accepted (the header-in-first-row check of step 4 is skipped), giving a
zero-row output; an input list of such tables therefore makes the aggregator
return a zero-row dataset, create the output directory and write the
workbook, instead of taking the NONE path. -/
theorem clean_accepts_rowless_tables (tables : List RawDF) (dir name : String)
    (hne : tables ≠ [])
    (hall : ∀ t ∈ tables, t.rows = [] ∧
      6 ≤ (presentOf (step6 (step5 (step4 (step3 (step2 (step1 t)))))).cols).length) :
    (∀ t ∈ tables, step4 (step3 (step2 (step1 t))) = step3 (step2 (step1 t))) ∧
    (∀ t ∈ tables, ∃ o, clean_table_to_stock_schema t = some o ∧ o.rows = []) ∧
    (∃ C, save_all_tables_single_sheet tables dir name =
        (some C,
         [FSEvent.mkdirAll dir, FSEvent.writeExcel (dir ++ "/" ++ name) "AllData" C]) ∧
      C.rows = []) ∧
    (save_all_tables_single_sheet tables dir name).1 ≠ none := by
  have h3 : ∀ t ∈ tables, (step3 (step2 (step1 t))).rows = [] := by
    intro t ht
    have hrt := (hall t ht).1
    simp [step3, step2, step1, maskDF, hrt]
  have hstep4 : ∀ t ∈ tables, step4 (step3 (step2 (step1 t))) = step3 (step2 (step1 t)) := by
    intro t ht
    unfold step4
    rw [h3 t ht]
  have h6 : ∀ t ∈ tables, (step6 (step5 (step4 (step3 (step2 (step1 t)))))).rows = [] := by
    intro t ht
    rw [hstep4 t ht]
    simp [step6, step5, maskDF, h3 t ht]
  have hsome : ∀ t ∈ tables, clean_table_to_stock_schema t =
      some (scripStep (selectCols
        (presentOf (step6 (step5 (step4 (step3 (step2 (step1 t)))))).cols)
        (step6 (step5 (step4 (step3 (step2 (step1 t)))))))) := by
    intro t ht
    have hge := (hall t ht).2
    unfold clean_table_to_stock_schema finishFrom
    dsimp only
    rw [if_neg (by omega)]
  have hrows0 : ∀ t ∈ tables, ∃ o, clean_table_to_stock_schema t = some o ∧ o.rows = [] := by
    intro t ht
    refine ⟨_, hsome t ht, ?_⟩
    apply scripStep_rows_nil
    simp [selectCols, h6 t ht]
  have hclne : tables.filterMap clean_table_to_stock_schema ≠ [] := by
    rcases tables with _ | ⟨t, ts⟩
    · exact absurd rfl hne
    · obtain ⟨o, ho, -⟩ := hrows0 t (by simp)
      simp [List.filterMap_cons, ho]
  have hallnil : ∀ d ∈ tables.filterMap clean_table_to_stock_schema, d.rows = [] := by
    intro d hd
    obtain ⟨t, ht, hct⟩ := List.mem_filterMap.mp hd
    obtain ⟨o, ho, hor⟩ := hrows0 t ht
    rw [ho] at hct
    obtain rfl := Option.some.inj hct
    exact hor
  have hCrows : (concatIgnoreIndex (tables.filterMap clean_table_to_stock_schema)).rows = [] := by
    unfold concatIgnoreIndex
    dsimp only
    rw [List.flatten_eq_nil_iff]
    intro l hl
    obtain ⟨d, hd, rfl⟩ := List.mem_map.mp hl
    rw [hallnil d hd]
    rfl
  have hsave : save_all_tables_single_sheet tables dir name =
      (some (concatIgnoreIndex (tables.filterMap clean_table_to_stock_schema)),
       [FSEvent.mkdirAll dir,
        FSEvent.writeExcel (dir ++ "/" ++ name) "AllData"
          (concatIgnoreIndex (tables.filterMap clean_table_to_stock_schema))]) := by
    have htne : tables.isEmpty = false := List.isEmpty_eq_false.mpr hne
    have hcne : (tables.filterMap clean_table_to_stock_schema).isEmpty = false :=
      List.isEmpty_eq_false.mpr hclne
    unfold save_all_tables_single_sheet
    simp [htne, hcne]
  refine ⟨hstep4, hrows0, ⟨_, hsave, hCrows⟩, ?_⟩
  rw [hsave]
  simp

/-- Witness for C10: the header-only fixture is accepted and the aggregator
takes the write path, not the NONE path. -/
theorem clean_accepts_rowless_tables_witness :
    wEmptyRaw.rows = [] ∧
    6 ≤ (presentOf (step6 (step5 (step4 (step3 (step2 (step1 wEmptyRaw)))))).cols).length ∧
    (save_all_tables_single_sheet [wEmptyRaw]
        "psx_output" "psx_stocks_single_sheet.xlsx").1 ≠ none :=
  ⟨by decide, by decide,
   (clean_accepts_rowless_tables [wEmptyRaw] "psx_output" "psx_stocks_single_sheet.xlsx"
      (by decide) (by decide)).2.2.2⟩


theorem toDF_ofDF (d : DF) : RawDF.toDF (RawDF.ofDF d) = d := rfl

theorem heapGet_append_left (h l : List RawDF) (i : Nat) (hi : i < h.length) :
    heapGet (h ++ l) i = heapGet h i := by
  unfold heapGet
  rw [List.getD_eq_getElem?_getD, List.getD_eq_getElem?_getD, List.getElem?_append,
    if_pos hi]

theorem heapGet_append_self (h : List RawDF) (v : RawDF) :
    heapGet (h ++ [v]) h.length = v := by
  unfold heapGet
  rw [List.getD_eq_getElem?_getD, List.getElem?_append]
  simp

theorem heapGet_set_ne (h : List RawDF) (p : Nat) (v : RawDF) (i : Nat) (hip : i ≠ p) :
    heapGet (h.set p v) i = heapGet h i := by
  unfold heapGet
  rw [List.getD_eq_getElem?_getD, List.getD_eq_getElem?_getD,
    List.getElem?_set_ne (Ne.symm hip)]

theorem pres_refl (h : List RawDF) : Pres h h := ⟨le_refl _, fun _ _ => rfl⟩

theorem pres_append (h0 h l : List RawDF) (hp : Pres h0 h) : Pres h0 (h ++ l) := by
  refine ⟨le_trans hp.1 (by simp), fun i hi => ?_⟩
  rw [heapGet_append_left h l i (lt_of_lt_of_le hi hp.1)]
  exact hp.2 i hi

theorem pres_set (h0 h : List RawDF) (p : Nat) (v : RawDF) (hp : Pres h0 h)
    (hple : h0.length ≤ p) : Pres h0 (h.set p v) := by
  refine ⟨by simpa using hp.1, fun i hi => ?_⟩
  rw [heapGet_set_ne h p v i (by omega)]
  exact hp.2 i hi

theorem heapStep4_pres (h0 h4 : List RawDF) (p2 : Nat) (d3 : DF)
    (hp : Pres h0 h4) (hle : h0.length ≤ p2) :
    Pres h0 (heapStep4 h4 p2 d3).1 ∧ h0.length ≤ (heapStep4 h4 p2 d3).2 := by
  unfold heapStep4
  rcases hr : d3.rows with _ | ⟨a, l⟩
  · exact ⟨hp, hle⟩
  · dsimp only
    split
    · constructor
      · exact pres_append _ _ _ (pres_set _ _ _ _ hp hle)
      · rw [List.length_set]
        exact hp.1
    · exact ⟨hp, hle⟩

theorem cleanHeap_pres (h0 : List RawDF) (r0 : Nat) (hf : List RawDF) (res : Option Nat)
    (heq : cleanHeap h0 r0 = (hf, res)) : Pres h0 hf := by
  unfold cleanHeap at heq
  dsimp only at heq
  set t0 := heapGet h0 r0 with ht0
  set d1 := RawDF.ofDF (step1 t0) with hd1
  set d2 := RawDF.ofDF (step2 (RawDF.toDF d1)) with hd2
  set d3 := RawDF.ofDF (step3 (RawDF.toDF d2)) with hd3
  set hA := ((h0 ++ [t0]).set h0.length d1).set h0.length d2 with hhA
  set hB := hA ++ [d3] with hhB
  set s := heapStep4 hB hA.length (RawDF.toDF d3) with hs
  set d6 := RawDF.ofDF (step4 (RawDF.toDF d3)) with hd6
  set d7 := RawDF.ofDF (step5 (RawDF.toDF d6)) with hd7
  set hC := s.1.set s.2 d7 with hhC
  set d8 := RawDF.ofDF (step6 (RawDF.toDF d7)) with hd8
  set hD := hC ++ [d8] with hhD
  set d9 := RawDF.ofDF (selectCols (presentOf (RawDF.toDF d8).cols) (RawDF.toDF d8)) with hd9
  have hpA : Pres h0 hA :=
    pres_set _ _ _ _ (pres_set _ _ _ _ (pres_append _ _ _ (pres_refl h0)) (le_refl _))
      (le_refl _)
  have hpB : Pres h0 hB := pres_append _ _ _ hpA
  have hleA : h0.length <= hA.length := hpA.1
  have hs4 : Pres h0 s.1 /\ h0.length <= s.2 := by
    rw [hs]
    exact heapStep4_pres h0 hB hA.length (RawDF.toDF d3) hpB hleA
  have hpC : Pres h0 hC := pres_set _ _ _ _ hs4.1 hs4.2
  have hpD : Pres h0 hD := pres_append _ _ _ hpC
  split at heq
  · injection heq with h1 h2
    subst h1
    exact hpD
  · split at heq
    · injection heq with h1 h2
      subst h1
      exact pres_append _ _ _ hpD
    · injection heq with h1 h2
      subst h1
      refine pres_append _ _ _ (pres_set _ _ _ _ (pres_append _ _ _ hpD) ?_)
      exact le_trans hpD.1 (by simp)


theorem cleanHeap_spec (h0 : List RawDF) (r0 : Nat) (hf : List RawDF) (res : Option Nat)
    (heq : cleanHeap h0 r0 = (hf, res)) :
    res.map (fun p => heapGet hf p) =
      (clean_table_to_stock_schema (heapGet h0 r0)).map RawDF.ofDF := by
  unfold cleanHeap at heq
  simp only [toDF_ofDF] at heq
  unfold clean_table_to_stock_schema finishFrom
  dsimp only
  split at heq
  · next hc =>
      injection heq with h1 h2
      subst h1
      subst h2
      rw [if_pos hc]
      rfl
  · next hnc =>
      rw [if_neg hnc]
      split at heq
      · next hfind =>
          injection heq with h1 h2
          subst h1
          subst h2
          have hss : ∀ d : DF, d.cols.findIdx? (fun x => x == "SCRIP") = none →
              scripStep d = d := by
            intro d hd
            unfold scripStep
            rw [hd]
          rw [hss _ hfind]
          dsimp only [Option.map]
          rw [heapGet_append_self]
      · next j hfind =>
          injection heq with h1 h2
          subst h1
          subst h2
          have hss2 : ∀ (d : DF) (j : Nat),
              d.cols.findIdx? (fun x => x == "SCRIP") = some j →
              scripStep d = ⟨d.cols,
                applyMask ((d.rows.map
                    (fun r => r.set j (Cell.val (pyStrip (r.getD j Cell.na).toStr)))).map
                  (fun r => pyUpper (r.getD j Cell.na).toStr != "SCRIP")) d.index,
                applyMask ((d.rows.map
                    (fun r => r.set j (Cell.val (pyStrip (r.getD j Cell.na).toStr)))).map
                  (fun r => pyUpper (r.getD j Cell.na).toStr != "SCRIP"))
                  (d.rows.map
                    (fun r => r.set j (Cell.val (pyStrip (r.getD j Cell.na).toStr))))⟩ := by
            intro d j hd
            unfold scripStep
            rw [hd]
          rw [hss2 _ _ hfind]
          dsimp only [Option.map]
          rw [heapGet_append_self]

/-- C9: the normalizer is pure with respect to its input: running
`clean_table_to_stock_schema` over the object heap leaves the caller's table
(and every other pre-existing object) unchanged — all writes go to the
working copy and to freshly allocated frames — and the returned reference
holds exactly the value of the pure function. -/
theorem clean_pure_frame (h0 : List RawDF) (r0 : Nat) (hr : r0 < h0.length) :
    heapGet (cleanHeap h0 r0).1 r0 = heapGet h0 r0 ∧
    (∀ i, i < h0.length → heapGet (cleanHeap h0 r0).1 i = heapGet h0 i) ∧
    (cleanHeap h0 r0).2.map (fun p => heapGet (cleanHeap h0 r0).1 p) =
      (clean_table_to_stock_schema (heapGet h0 r0)).map RawDF.ofDF := by
  rcases hcc : cleanHeap h0 r0 with ⟨hfin, res⟩
  have hp := cleanHeap_pres h0 r0 hfin res hcc
  have hsp := cleanHeap_spec h0 r0 hfin res hcc
  exact ⟨hp.2 r0 hr, hp.2, hsp⟩

/-- Witness for C9: a two-object heap; normalizing the first table leaves it
untouched on the heap. -/
theorem clean_pure_frame_witness :
    0 < ([wStockRaw, wNoiseRaw] : List RawDF).length ∧
    heapGet (cleanHeap [wStockRaw, wNoiseRaw] 0).1 0 = heapGet [wStockRaw, wNoiseRaw] 0 :=
  ⟨by decide, (clean_pure_frame [wStockRaw, wNoiseRaw] 0 (by decide)).1⟩
end PSX
